import Mathlib

set_option maxRecDepth 100000

/-!
Shallow embedding of the schema-to-struct generator in `generate.go` of the
goxsd repository, together with theorems checking the natural-language
specification against it.

Strings are modelled at the level of their character lists.  The Go standard
library helpers used by the generator (`strings.Title`, `strings.Split`,
`strings.Replace`, `strings.NewReplacer`) are embedded for the ASCII fragment
that the generator exercises: `unicode.ToTitle` is up-casing of ASCII
lower-case letters, and `strings.isSeparator` is its ASCII arm (letters,
digits and underscore are not separators, everything else is).
-/

namespace Goxsd

/-- ASCII fragment of Go's `unicode.ToTitle` (as used by `strings.Title`):
an ASCII lower-case letter is up-cased, every other character is unchanged. -/
def titleChar (c : Char) : Char :=
  if c.isLower then Char.ofNat (c.toNat - 32) else c

/-- Go's `strings.isSeparator`, ASCII arm: alphanumerics and underscore are
not separators, every other character is. -/
def isSeparator (c : Char) : Bool :=
  !(c.isDigit || c.isLower || c.isUpper || c == '_')

/-- Character-list worker for Go's `strings.Title`: a character that follows a
separator is title-cased; the previous original character is the state and the
initial state is a space (so the first character is always title-cased). -/
def titleMap : Char → List Char → List Char
  | _, [] => []
  | prev, c :: rest => (if isSeparator prev then titleChar c else c) :: titleMap c rest

/-- Go's `strings.Title`. -/
def goTitle (s : String) : String := ⟨titleMap ' ' s.data⟩

/-- Go's `strings.Split` for a one-character separator, on character lists:
a separator opens a fresh piece, any other character is prepended to the
current first piece (the result is never empty). -/
def splitChar (sep : Char) : List Char → List (List Char)
  | [] => [[]]
  | c :: cs =>
    if c == sep then [] :: splitChar sep cs
    else (c :: (splitChar sep cs).headD []) :: (splitChar sep cs).tail

/-- `squish` from generate.go: `strings.Replace(s, " ", "", -1)`,
i.e. delete every space character. -/
def squish (s : String) : String := ⟨s.data.filter (fun c => c != ' ')⟩

/-- Common body of `dashToCamel` and `snakeToCamel` from generate.go: split on
the separator; when there is more than one piece, `strings.Title` every piece
after the first and join the pieces back without the separator; otherwise
return the name unchanged. -/
def sepToCamel (sep : Char) (name : String) : String :=
  match splitChar sep name.data with
  | [] => name
  | [_] => name
  | p :: q :: rest => ⟨p ++ (((q :: rest).map (titleMap ' ')).flatten)⟩

/-- `dashToCamel` from generate.go. -/
def dashToCamel (name : String) : String := sepToCamel '-' name

/-- `snakeToCamel` from generate.go. -/
def snakeToCamel (name : String) : String := sepToCamel '_' name

/-- The `initialismPairs` table from generate.go, in its declared order. -/
def initialismPairs : List (String × String) :=
  [("Api", "API"), ("Ascii", "ASCII"), ("Cpu", "CPU"), ("Css", "CSS"),
   ("Dns", "DNS"), ("Eof", "EOF"), ("Guid", "GUID"), ("Html", "HTML"),
   ("Https", "HTTPS"), ("Http", "HTTP"), ("Id", "ID"), ("Ip", "IP"),
   ("Json", "JSON"), ("Lhs", "LHS"), ("Qps", "QPS"), ("Ram", "RAM"),
   ("Rhs", "RHS"), ("Rpc", "RPC"), ("Sla", "SLA"), ("Smtp", "SMTP"),
   ("Sql", "SQL"), ("Ssh", "SSH"), ("Tcp", "TCP"), ("Tls", "TLS"),
   ("Ttl", "TTL"), ("Udp", "UDP"), ("Uid", "UID"), ("Ui", "UI"),
   ("Uuid", "UUID"), ("Uri", "URI"), ("Url", "URL"), ("Utf8", "UTF8"),
   ("Vm", "VM"), ("Xml", "XML"), ("Xsrf", "XSRF"), ("Xss", "XSS")]

/-- First pair of the table whose old string matches at the head of the input;
Go's `strings.Replacer` resolves several matches at one position in favour of
the pair given first. -/
def findPair (cs : List Char) : List (String × String) → Option (String × String)
  | [] => none
  | (o, n) :: rest => if o.data.isPrefixOf cs then some (o, n) else findPair cs rest

/-- One left-to-right, non-overlapping replacement pass of `initialisms.Replace`:
at each position the first matching pair in table order is substituted and the
scan continues after the matched text; otherwise the character is copied.  The
fuel argument only bounds the recursion; `s.data.length` fuel is always enough
because every step consumes at least one character. -/
def replaceFuel : Nat → List Char → List Char
  | _, [] => []
  | 0, cs => cs
  | fuel + 1, c :: cs =>
    match findPair (c :: cs) initialismPairs with
    | some (o, n) => n.data ++ replaceFuel fuel ((c :: cs).drop o.length)
    | none => c :: replaceFuel fuel cs

/-- `initialisms.Replace` from generate.go. -/
def initialismsReplace (s : String) : String := ⟨replaceFuel s.data.length s.data⟩

/-- `lint` from generate.go. -/
def lint (s : String) : String :=
  snakeToCamel (dashToCamel (squish (initialismsReplace s)))

/-- `lintTitle` from generate.go: `lint(strings.Title(s))`. -/
def lintTitle (s : String) : String := lint (goTitle s)

/-- One attribute of a schema element, as read by the generator's templates
(`.Name` and `.Type` of an entry of `.Attribs`).  The `Type` field of the
source is spelled `Typ` here (`Type` is reserved in Lean). -/
structure xmlAttrib where
  Name : String
  Typ : String

/-- One schema element of the input tree, with exactly the fields generate.go
reads: `.Name`, `.Type` (spelled `Typ`), `.Cdata`, `.Attribs`, `.Children`
and `.List` (declared last so that the type `List` stays in scope above). -/
structure xmlTree where
  Name : String
  Typ : String
  Cdata : Bool
  Attribs : List xmlAttrib
  Children : List xmlTree
  List : Bool

/-- The primitive arm of the `switch` in `typeName` and `primitiveType`. -/
def isPrimitiveName (name : String) : Bool :=
  name == "bool" || name == "string" || name == "int" ||
    name == "float64" || name == "time.Time"

/-- The `typeName` closure built in `prepareTemplates(prefix, exported)`:
primitive names pass through unchanged; otherwise a non-empty prefix is
prepended to the title-cased name, the whole is title-cased when `exported`
is set, and the result is linted.  The source's `prefix` argument is spelled
`pfx` (`prefix` is reserved in Lean). -/
def typeName (pfx : String) (exported : Bool) (name : String) : String :=
  if isPrimitiveName name then name
  else
    let n1 := if pfx != "" then pfx ++ goTitle name else name
    let n2 := if exported then goTitle n1 else n1
    lint n2

/-- `fieldType` from generate.go: a chardata element's field type is named
after the element itself, otherwise the declared element type is used. -/
def fieldType (e : xmlTree) : String :=
  if e.Cdata then e.Name else e.Typ

/-- `primitiveType` from generate.go: a chardata element is never primitive;
otherwise the element is primitive iff its type is a primitive name. -/
def primitiveType (e : xmlTree) : Bool :=
  if e.Cdata then false else isPrimitiveName e.Typ

/-- Concatenation of a list of rendered fragments, as the template `range`
actions produce them. -/
def strConcat : List String → String
  | [] => ""
  | s :: rest => s ++ strConcat rest

/-- Output of the `Attr` template for one attribute: two spaces, the linted
title-cased attribute name, the linted attribute type and an `xml` tag holding
the raw attribute name with `,attr`. -/
def attrField (a : xmlAttrib) : String :=
  "  " ++ lintTitle a.Name ++ " " ++ lint a.Typ ++ " `xml:\"" ++ a.Name ++ ",attr\"`\n"

/-- Output of the `Child` template for one child element: two spaces, the
linted title-cased child name, `[]` when the child is a list, the resolved
type name of `fieldType` and an `xml` tag holding the raw child name. -/
def childField (pfx : String) (exported : Bool) (c : xmlTree) : String :=
  "  " ++ lintTitle c.Name ++ " " ++ (if c.List then "[]" else "") ++
    typeName pfx exported (fieldType c) ++ " `xml:\"" ++ c.Name ++ "\"`\n"

/-- Output of the `Cdata` template: the linted title-cased element name, the
linted element type and the `,chardata` tag. -/
def cdataField (e : xmlTree) : String :=
  lintTitle e.Name ++ " " ++ lint e.Typ ++ " `xml:\",chardata\"`\n"

/-- Output of the root `elem` template for one element: comment line and
struct header, one `Attr` field per attribute, one `Child` field per child,
a space, the `Cdata` field when `Cdata` is set, and the closing ` }`. -/
def elemDecl (pfx : String) (exported : Bool) (e : xmlTree) : String :=
  "// " ++ typeName pfx exported e.Name ++ " is generated from an XSD element\ntype " ++
    typeName pfx exported e.Name ++ " struct \x7b\n" ++
    strConcat (e.Attribs.map attrField) ++
    strConcat (e.Children.map (childField pfx exported)) ++
    " " ++ (if e.Cdata then cdataField e else "") ++ " \x7d\n"

/-- The rendering that the prepared templates perform in this embedding:
`tt.Execute(out, root)` appends `elemDecl` and cannot fail.  The walker below
is kept parametric in the renderer so that the error paths of the source
(`tt.Execute` returning an error) are also covered. -/
def pureRender (pfx : String) (exported : Bool) (e : xmlTree) : Except String String :=
  Except.ok (elemDecl pfx exported e)

mutual

/-- `generator.execute` from generate.go.  The state is the visited-name set
`g.types` (as a list) and the bytes written to the output buffer so far; the
result carries the error of the first failing render, if any, together with
the state at that moment. -/
def executeGo (render : xmlTree → Except String String) :
    xmlTree → List String → String → Option String × List String × String
  | root@⟨nm, _, _, _, ch, _⟩, types, out =>
    if nm ∈ types then (none, types, out)
    else
      match render root with
      | Except.error e => (some e, types, out)
      | Except.ok txt =>
        executeChildren render ch (nm :: types) (out ++ txt)

/-- The child loop of `generator.execute`: primitive children are skipped,
non-primitive children are executed in order, and the first error aborts. -/
def executeChildren (render : xmlTree → Except String String) :
    List xmlTree → List String → String → Option String × List String × String
  | [], types, out => (none, types, out)
  | e :: rest, types, out =>
    if primitiveType e then executeChildren render rest types out
    else
      match executeGo render e types out with
      | (some err, t, o) => (some err, t, o)
      | (none, t, o) => executeChildren render rest t o

end

/-- The root loop of `generator.do`: execute every root in order against the
shared state, aborting on the first error. -/
def runRoots (render : xmlTree → Except String String) :
    List xmlTree → List String → String → Option String × List String × String
  | [], types, out => (none, types, out)
  | r :: rest, types, out =>
    match executeGo render r types out with
    | (some e, t, o) => (some e, t, o)
    | (none, t, o) => runRoots render rest t o

/-- The package header that `generator.do` writes into the buffer first. -/
def header (pkg : String) : String :=
  if pkg != "" then
    "// Code generated by goxsd. DO NOT EDIT.\n\npackage " ++ pkg ++ "\n\n"
  else ""

/-- `generator.do` from generate.go, parametric in the three fallible steps:
`prep` models `prepareTemplates`, `render` models `tt.Execute` on one node and
`format` models the external `imports.Process` pass.  The first component is
the outcome returned to the caller; the second component is the bytes handed
to the output writer, which happens only after every step has succeeded. -/
def doGen (prep : Except String Unit) (render : xmlTree → Except String String)
    (format : String → Except String String) (pkg : String) (roots : List xmlTree) :
    Except String Unit × String :=
  match prep with
  | Except.error e => (Except.error ("could not prepare templates: " ++ e), "")
  | Except.ok _ =>
    match runRoots render roots [] (header pkg) with
    | (some e, _, _) => (Except.error e, "")
    | (none, _, res) =>
      match format res with
      | Except.error e => (Except.error e, "")
      | Except.ok buf => (Except.ok (), buf)

/-- Concrete primitive-typed root used for claim C1. -/
def c1Node : xmlTree := ⟨"qty", "int", false, [], [], false⟩

/-- Concrete attribute-carrying element used for claim C3. -/
def c3Node : xmlTree := ⟨"E", "E", false, [⟨"n", "MyType"⟩], [], false⟩

/-- The list child of the worked example of claim C4. -/
def c4Li : xmlTree := ⟨"line-item", "LineItem", false, [], [], true⟩

/-- The root of the worked example of claim C4. -/
def c4Order : xmlTree := ⟨"Order", "Order", false, [⟨"id", "int"⟩], [c4Li], false⟩

/-- Concrete element used for claim C6. -/
def c6Node : xmlTree := ⟨"A", "T", false, [], [], false⟩

/-- Concrete chardata element used for claim C7. -/
def c7Node : xmlTree := ⟨"note", "string", true, [], [], false⟩

/-- Concrete element used for claim C10. -/
def c10Node : xmlTree := ⟨"B", "T", false, [], [], false⟩



/-! ## Character-level facts about `titleChar` -/

lemma char_toNat_ofNat (n : Nat) (h : n.isValidChar) : (Char.ofNat n).toNat = n := by
  unfold Char.ofNat
  split
  · rfl
  · exact absurd h (by assumption)

lemma isLower_toNat {c : Char} (h : c.isLower = true) : 97 ≤ c.toNat ∧ c.toNat ≤ 122 := by
  unfold Char.isLower at h
  rw [Bool.and_eq_true, decide_eq_true_eq, decide_eq_true_eq] at h
  exact ⟨h.1, h.2⟩

lemma titleChar_eq_or (c : Char) :
    titleChar c = c ∨ (65 ≤ (titleChar c).toNat ∧ (titleChar c).toNat ≤ 90) := by
  unfold titleChar
  split
  · rename_i h
    obtain ⟨h1, h2⟩ := isLower_toNat h
    right
    have hv : (c.toNat - 32).isValidChar := by
      unfold Nat.isValidChar
      left
      omega
    rw [char_toNat_ofNat _ hv]
    omega
  · exact Or.inl rfl

lemma titleChar_ne {c d : Char} (hne : c ≠ d) (hd : d.toNat < 65 ∨ 90 < d.toNat) :
    titleChar c ≠ d := by
  rcases titleChar_eq_or c with h | ⟨h1, h2⟩
  · rw [h]
    exact hne
  · intro he
    rw [he] at h1 h2
    rcases hd with hd | hd <;> omega

/-! ## Facts about `splitChar` and `titleMap` -/

lemma splitChar_ne_nil (sep : Char) (cs : List Char) : splitChar sep cs ≠ [] := by
  induction cs with
  | nil => simp [splitChar]
  | cons c cs ih =>
    rw [splitChar]
    split
    · simp
    · simp

lemma mem_of_mem_splitChar {sep : Char} {cs p : List Char} {c : Char}
    (hp : p ∈ splitChar sep cs) (hc : c ∈ p) : c ∈ cs ∧ c ≠ sep := by
  induction cs generalizing p with
  | nil =>
    simp [splitChar] at hp
    subst hp
    simp at hc
  | cons d cs ih =>
    rw [splitChar] at hp
    by_cases hd : d = sep
    · rw [if_pos (by simpa using hd)] at hp
      rcases List.mem_cons.mp hp with h1 | h1
      · subst h1
        simp at hc
      · have := ih h1 hc
        exact ⟨List.mem_cons_of_mem _ this.1, this.2⟩
    · rw [if_neg (by simpa using hd)] at hp
      cases hs : splitChar sep cs with
      | nil => exact absurd hs (splitChar_ne_nil sep cs)
      | cons q ps =>
        rw [hs] at hp
        simp only [List.headD_cons, List.tail_cons] at hp
        rcases List.mem_cons.mp hp with h1 | h1
        · subst h1
          rcases List.mem_cons.mp hc with h2 | h2
          · subst h2
            exact ⟨List.mem_cons_self _ _, hd⟩
          · have := ih (p := q) (by rw [hs]; exact List.mem_cons_self _ _) h2
            exact ⟨List.mem_cons_of_mem _ this.1, this.2⟩
        · have := ih (p := p) (by rw [hs]; exact List.mem_cons_of_mem _ h1) hc
          exact ⟨List.mem_cons_of_mem _ this.1, this.2⟩

lemma splitChar_of_not_mem {sep : Char} {cs : List Char} (h : sep ∉ cs) :
    splitChar sep cs = [cs] := by
  induction cs with
  | nil => rfl
  | cons c cs ih =>
    have hc : ¬(c = sep) := by
      intro he
      exact h (he ▸ List.mem_cons_self c cs)
    have h' : sep ∉ cs := fun hm => h (List.mem_cons_of_mem _ hm)
    rw [splitChar, if_neg (by simpa using hc), ih h']
    rfl

lemma splitChar_single {sep : Char} {cs q : List Char} (h : splitChar sep cs = [q]) :
    q = cs ∧ sep ∉ cs := by
  induction cs generalizing q with
  | nil =>
    simp [splitChar] at h
    subst h
    exact ⟨rfl, by simp⟩
  | cons c cs ih =>
    rw [splitChar] at h
    by_cases hc : c = sep
    · rw [if_pos (by simpa using hc)] at h
      injection h with h1 h2
      exact absurd h2 (splitChar_ne_nil sep cs)
    · rw [if_neg (by simpa using hc)] at h
      cases hs : splitChar sep cs with
      | nil => exact absurd hs (splitChar_ne_nil sep cs)
      | cons p ps =>
        rw [hs] at h
        simp only [List.headD_cons, List.tail_cons] at h
        injection h with h1 h2
        subst h2
        obtain ⟨hp, hns⟩ := ih hs
        subst hp
        refine ⟨h1.symm, ?_⟩
        intro hm
        rcases List.mem_cons.mp hm with h1 | h1
        · exact hc h1.symm
        · exact hns h1

lemma mem_titleMap {prev : Char} {cs : List Char} {c : Char} (hc : c ∈ titleMap prev cs) :
    ∃ c' ∈ cs, c = titleChar c' ∨ c = c' := by
  induction cs generalizing prev with
  | nil => simp [titleMap] at hc
  | cons d cs ih =>
    unfold titleMap at hc
    rcases List.mem_cons.mp hc with h | h
    · refine ⟨d, List.mem_cons_self _ _, ?_⟩
      split at h
      · exact Or.inl h
      · exact Or.inr h
    · obtain ⟨c', hc', h'⟩ := ih h
      exact ⟨c', List.mem_cons_of_mem _ hc', h'⟩

lemma sepToCamel_of_single {sep : Char} {s : String} {q : List Char}
    (h : splitChar sep s.data = [q]) : sepToCamel sep s = s := by
  unfold sepToCamel
  rw [h]

lemma sepToCamel_of_multi {sep : Char} {s : String} {q q2 : List Char}
    {ps : List (List Char)} (h : splitChar sep s.data = q :: q2 :: ps) :
    sepToCamel sep s = ⟨q ++ (((q2 :: ps).map (titleMap ' ')).flatten)⟩ := by
  unfold sepToCamel
  rw [h]

lemma sepToCamel_all (sep : Char) (p : Char → Bool)
    (hsep : sep.toNat < 65 ∨ 90 < sep.toNat)
    (hp : ∀ c, p c = true → p (titleChar c) = true)
    (s : String) (h : ∀ c ∈ s.data, p c = true) :
    ∀ c ∈ (sepToCamel sep s).data, p c = true ∧ c ≠ sep := by
  intro c hc
  cases hsplit : splitChar sep s.data with
  | nil => exact absurd hsplit (splitChar_ne_nil _ _)
  | cons q ps =>
    cases ps with
    | nil =>
      rw [sepToCamel_of_single hsplit] at hc
      exact ⟨h c hc, fun he => (splitChar_single hsplit).2 (he ▸ hc)⟩
    | cons q2 ps2 =>
      rw [sepToCamel_of_multi hsplit] at hc
      rcases List.mem_append.mp hc with h1 | h1
      · have hqm : q ∈ splitChar sep s.data := by
          rw [hsplit]
          exact List.mem_cons_self _ _
        have := mem_of_mem_splitChar hqm h1
        exact ⟨h c this.1, this.2⟩
      · obtain ⟨l, hl, hcl⟩ := List.mem_flatten.mp h1
        obtain ⟨piece, hpiece, rfl⟩ := List.mem_map.mp hl
        obtain ⟨c', hc', hor⟩ := mem_titleMap hcl
        have hqm : piece ∈ splitChar sep s.data := by
          rw [hsplit]
          exact List.mem_cons_of_mem _ hpiece
        have hmem := mem_of_mem_splitChar hqm hc'
        rcases hor with he | he
        · rw [he]
          exact ⟨hp c' (h c' hmem.1), titleChar_ne hmem.2 hsep⟩
        · rw [he]
          exact ⟨h c' hmem.1, hmem.2⟩

lemma mem_squish {s : String} {c : Char} (h : c ∈ (squish s).data) :
    c ∈ s.data ∧ c ≠ ' ' := by
  unfold squish at h
  have := List.mem_filter.mp h
  refine ⟨this.1, ?_⟩
  simpa using this.2

lemma sepToCamel_eq_self {sep : Char} {s : String} (h : sep ∉ s.data) :
    sepToCamel sep s = s :=
  sepToCamel_of_single (splitChar_of_not_mem h)

lemma squish_eq_self {s : String} (h : ' ' ∉ s.data) : squish s = s := by
  unfold squish
  conv_rhs => rw [show s = ⟨s.data⟩ from rfl]
  congr 1
  rw [List.filter_eq_self]
  intro a ha
  simp only [bne_iff_ne, ne_eq]
  intro he
  exact h (he ▸ ha)

/-! ## Unfolding equations for the walker and concatenation -/

lemma strConcat_cons (s : String) (l : List String) :
    strConcat (s :: l) = s ++ strConcat l := rfl

lemma strConcat_append (l1 l2 : List String) :
    strConcat (l1 ++ l2) = strConcat l1 ++ strConcat l2 := by
  induction l1 with
  | nil => rfl
  | cons s rest ih =>
    simp only [List.cons_append, strConcat_cons, ih, String.append_assoc]

lemma executeGo_eq (render : xmlTree → Except String String) (root : xmlTree)
    (types : List String) (out : String) :
    executeGo render root types out =
      if root.Name ∈ types then (none, types, out)
      else
        match render root with
        | Except.error e => (some e, types, out)
        | Except.ok txt =>
          executeChildren render root.Children (root.Name :: types) (out ++ txt) := by
  cases root
  rfl

lemma executeChildren_nil (render : xmlTree → Except String String)
    (types : List String) (out : String) :
    executeChildren render [] types out = (none, types, out) := rfl

lemma executeChildren_cons (render : xmlTree → Except String String) (e : xmlTree)
    (rest : List xmlTree) (types : List String) (out : String) :
    executeChildren render (e :: rest) types out =
      if primitiveType e then executeChildren render rest types out
      else
        match executeGo render e types out with
        | (some err, t, o) => (some err, t, o)
        | (none, t, o) => executeChildren render rest t o := rfl

lemma runRoots_cons (render : xmlTree → Except String String) (r : xmlTree)
    (rest : List xmlTree) (types : List String) (out : String) :
    runRoots render (r :: rest) types out =
      match executeGo render r types out with
      | (some e, t, o) => (some e, t, o)
      | (none, t, o) => runRoots render rest t o := rfl

/-- The visited set only grows during a walk, and it stays duplicate-free:
joint induction over `executeGo` and `executeChildren`. -/
lemma executeGo_mono_nodup (render : xmlTree → Except String String) :
    (∀ (root : xmlTree) (types : List String) (out : String),
      (∀ a ∈ types, a ∈ (executeGo render root types out).2.1) ∧
      (types.Nodup → (executeGo render root types out).2.1.Nodup)) ∧
    (∀ (l : List xmlTree) (types : List String) (out : String),
      (∀ a ∈ types, a ∈ (executeChildren render l types out).2.1) ∧
      (types.Nodup → (executeChildren render l types out).2.1.Nodup)) := by
  refine executeGo.mutual_induct render
    (fun root types out =>
      (∀ a ∈ types, a ∈ (executeGo render root types out).2.1) ∧
      (types.Nodup → (executeGo render root types out).2.1.Nodup))
    (fun l types out =>
      (∀ a ∈ types, a ∈ (executeChildren render l types out).2.1) ∧
      (types.Nodup → (executeChildren render l types out).2.1.Nodup))
    ?_ ?_ ?_ ?_ ?_ ?_ ?_
  · intro nm ty cd ats ch ls types out hmem
    rw [executeGo_eq]
    simp only [if_pos hmem]
    exact ⟨fun a ha => ha, fun h => h⟩
  · intro nm ty cd ats ch ls types out hmem e hrender
    rw [executeGo_eq]
    simp only [hrender, if_neg hmem]
    exact ⟨fun a ha => ha, fun h => h⟩
  · intro nm ty cd ats ch ls types out hmem txt hrender ih
    rw [executeGo_eq]
    simp only [hrender, if_neg hmem]
    constructor
    · intro a ha
      exact ih.1 a (List.mem_cons_of_mem _ ha)
    · intro h
      exact ih.2 (List.nodup_cons.mpr ⟨hmem, h⟩)
  · intro types out
    rw [executeChildren_nil]
    exact ⟨fun a ha => ha, fun h => h⟩
  · intro e rest types out hprim ih
    rw [executeChildren_cons]
    simp only [if_pos hprim]
    exact ih
  · intro e rest types out hprim err t o hgo ih
    rw [executeChildren_cons]
    simp only [if_neg hprim, hgo]
    constructor
    · intro a ha
      have := ih.1 a ha
      rw [hgo] at this
      exact this
    · intro h
      have := ih.2 h
      rw [hgo] at this
      exact this
  · intro e rest types out hprim t o hgo ih1 ih2
    rw [executeChildren_cons]
    simp only [if_neg hprim, hgo]
    constructor
    · intro a ha
      refine ih2.1 a ?_
      have := ih1.1 a ha
      rw [hgo] at this
      exact this
    · intro h
      refine ih2.2 ?_
      have := ih1.2 h
      rw [hgo] at this
      exact this

/-- A successfully executed root is recorded in the resulting visited set. -/
lemma mem_types_of_executeGo_ok {render : xmlTree → Except String String}
    {root : xmlTree} {types t : List String} {out o : String}
    (h : executeGo render root types out = (none, t, o)) : root.Name ∈ t := by
  rw [executeGo_eq] at h
  by_cases hm : root.Name ∈ types
  · rw [if_pos hm] at h
    have ht : types = t := congrArg (fun p => p.2.1) h
    exact ht ▸ hm
  · rw [if_neg hm] at h
    cases hr : render root with
    | error e =>
      rw [hr] at h
      simp at h
    | ok txt =>
      rw [hr] at h
      have h2 : executeChildren render root.Children (root.Name :: types) (out ++ txt) =
          (none, t, o) := h
      have hmem := ((executeGo_mono_nodup render).2 root.Children
        (root.Name :: types) (out ++ txt)).1 root.Name (List.mem_cons_self _ _)
      rw [h2] at hmem
      exact hmem

/-- A root whose name is already visited is skipped without any effect. -/
lemma executeGo_visited {render : xmlTree → Except String String} {root : xmlTree}
    {types : List String} {out : String} (h : root.Name ∈ types) :
    executeGo render root types out = (none, types, out) := by
  rw [executeGo_eq, if_pos h]

/-! ## Claim theorems -/

/-- C9: for every input string, the output of the identifier normalizer `lint`
contains no space, `-` or `_` character: spaces are deleted by `squish` and
each separator folding removes every occurrence of its separator, while
title-casing never produces a separator. -/
theorem c9_lint_output_separator_free (s : String) :
    (lint s).data.all (fun c => !(c == ' ' || c == '-' || c == '_')) = true := by
  rw [List.all_eq_true]
  intro c hc
  have hlint : lint s = sepToCamel '_' (sepToCamel '-' (squish (initialismsReplace s))) := rfl
  rw [hlint] at hc
  have hsq : ∀ d ∈ (squish (initialismsReplace s)).data, (d != ' ') = true := by
    intro d hd
    simpa using (mem_squish hd).2
  have hp1 : ∀ d, (d != ' ') = true → (titleChar d != ' ') = true := by
    intro d hd
    simpa using titleChar_ne (by simpa using hd) (Or.inl (by decide))
  have hdash := sepToCamel_all '-' (fun d => d != ' ') (Or.inl (by decide)) hp1
    (squish (initialismsReplace s)) hsq
  have hmid : ∀ d ∈ (sepToCamel '-' (squish (initialismsReplace s))).data,
      ((d != ' ') && (d != '-')) = true := by
    intro d hd
    have h1 := hdash d hd
    rw [Bool.and_eq_true]
    exact ⟨h1.1, by simpa using h1.2⟩
  have hp2 : ∀ d, ((d != ' ') && (d != '-')) = true →
      ((titleChar d != ' ') && (titleChar d != '-')) = true := by
    intro d hd
    rw [Bool.and_eq_true] at hd ⊢
    constructor
    · simpa using titleChar_ne (by simpa using hd.1) (Or.inl (by decide))
    · simpa using titleChar_ne (by simpa using hd.2) (Or.inl (by decide))
  have hsnake := sepToCamel_all '_' (fun d => (d != ' ') && (d != '-'))
    (Or.inr (by decide)) hp2 (sepToCamel '-' (squish (initialismsReplace s))) hmid
  obtain ⟨hb, hu⟩ := hsnake c hc
  rw [Bool.and_eq_true] at hb
  have h1 : c ≠ ' ' := by simpa using hb.1
  have h2 : c ≠ '-' := by simpa using hb.2
  simp [h1, h2, hu]

/-- C5 (amended): the normalizer is idempotent on separator-free strings on
which the initialism replacement acts as the identity; on such strings it is
in fact the identity.  (The unrestricted claim fails, see the counterexample:
a replacement can manufacture a fresh initialism occurrence.) -/
theorem c5_lint_idempotent (x : String)
    (hsep : x.data.all (fun c => !(c == ' ' || c == '-' || c == '_')) = true)
    (hrep : initialismsReplace x = x) :
    lint x = x ∧ lint (lint x) = lint x := by
  rw [List.all_eq_true] at hsep
  have h1 : ' ' ∉ x.data := by
    intro hm
    have := hsep _ hm
    simp at this
  have h2 : '-' ∉ x.data := by
    intro hm
    have := hsep _ hm
    simp at this
  have h3 : '_' ∉ x.data := by
    intro hm
    have := hsep _ hm
    simp at this
  have hx : lint x = x := by
    show sepToCamel '_' (sepToCamel '-' (squish (initialismsReplace x))) = x
    rw [hrep, squish_eq_self h1, sepToCamel_eq_self h2, sepToCamel_eq_self h3]
  refine ⟨hx, ?_⟩
  rw [hx]
  exact hx

/-- C5 counterexample: `"Apid"` contains no space, `-` or `_`, yet `lint` is
not idempotent on it: `lint "Apid" = "APId"` (the pair `Api → API` fires) and
`lint "APId" = "APID"` (the freshly created `Id` then fires). -/
theorem c5_cx :
    ("Apid".data.all (fun c => !(c == ' ' || c == '-' || c == '_'))) = true ∧
    lint "Apid" = "APId" ∧ lint (lint "Apid") = "APID" ∧
    lint (lint "Apid") ≠ lint "Apid" := by
  refine ⟨by decide, by decide, by decide, by decide⟩

/-- C5 witness: a concrete separator-free, replacement-fixed input. -/
theorem c5_witness : lint "Hello" = "Hello" ∧ lint (lint "Hello") = lint "Hello" :=
  c5_lint_idempotent "Hello" (by decide) (by decide)

/-- C2 (amended): `typeName` leaves the five primitive names unchanged; on any
other name with a non-empty prefix it is the normalizer applied to the prefix
concatenated with the title-cased *name* (the name, not the prefix, is
title-cased), and with `exported` the whole concatenation is additionally
title-cased before normalization. -/
theorem c2_typeName_shape (pfx name : String) (exported : Bool) :
    (isPrimitiveName name = true → typeName pfx exported name = name) ∧
    (isPrimitiveName name = false → pfx ≠ "" →
      typeName pfx false name = lint (pfx ++ goTitle name) ∧
      typeName pfx true name = lint (goTitle (pfx ++ goTitle name))) := by
  constructor
  · intro h
    unfold typeName
    rw [if_pos h]
  · intro h hp
    have hb : (pfx != "") = true := by simpa using hp
    constructor
    · simp [typeName, h, hb]
    · simp [typeName, h, hb]

/-- C2 counterexample: with prefix `"xx"` and name `"yy"` the resolver returns
`lint("xx" ++ Title("yy")) = "xxYy"`, not the claimed
`lint(Title("xx") ++ "yy") = "Xxyy"`: the name, not the prefix, is title-cased. -/
theorem c2_cx : ¬(typeName "xx" false "yy" = lint (goTitle "xx" ++ "yy")) := by decide

/-- C2 witness: the amended shape at a concrete non-primitive input. -/
theorem c2_witness :
    typeName "xx" false "yy" = lint ("xx" ++ goTitle "yy") ∧
    typeName "xx" true "yy" = lint (goTitle ("xx" ++ goTitle "yy")) :=
  (c2_typeName_shape "xx" "yy" false).2 (by decide) (by decide)

/-- C6: deduplication of the walk.  From any duplicate-free visited set, a
successful execution of a root records its raw name, keeps the visited set
duplicate-free (so at most one declaration is ever rendered per distinct raw
name), and a second root carrying the same raw name is then skipped entirely:
no re-emission, no recursion, no state change. -/
theorem c6_dedup (render : xmlTree → Except String String) (r1 r2 : xmlTree)
    (types : List String) (out : String) (t1 : List String) (o1 : String)
    (hnd : types.Nodup)
    (hrun : executeGo render r1 types out = (none, t1, o1)) :
    r1.Name ∈ t1 ∧ t1.Nodup ∧
    (r2.Name = r1.Name → executeGo render r2 t1 o1 = (none, t1, o1)) := by
  refine ⟨mem_types_of_executeGo_ok hrun, ?_, ?_⟩
  · have := ((executeGo_mono_nodup render).1 r1 types out).2 hnd
    rw [hrun] at this
    exact this
  · intro he
    exact executeGo_visited (he ▸ mem_types_of_executeGo_ok hrun)

/-- C6 witness: running a root, then a root with the same name, from the empty
visited set; the second run changes nothing. -/
theorem c6_witness :
    "A" ∈ ["A"] ∧ (["A"] : List String).Nodup ∧
    executeGo (pureRender "" false) c6Node ["A"] (elemDecl "" false c6Node) =
      (none, ["A"], elemDecl "" false c6Node) := by
  have h := c6_dedup (pureRender "" false) c6Node c6Node [] "" ["A"]
    (elemDecl "" false c6Node) (by simp) (by decide)
  exact ⟨h.1, h.2.1, h.2.2 rfl⟩

/-- C10: a node's name enters the visited set only after its declaration has
rendered successfully.  If rendering an unvisited node fails, the walk aborts
with the state exactly as it was before that node (its name unrecorded,
nothing emitted), and neither the remaining children of the current parent nor
the remaining roots are processed. -/
theorem c10_visited_only_after_render :
    (∀ (render : xmlTree → Except String String) (root : xmlTree)
      (types : List String) (out : String) (e : String),
      root.Name ∉ types → render root = Except.error e →
      executeGo render root types out = (some e, types, out)) ∧
    (∀ (render : xmlTree → Except String String) (c : xmlTree) (rest : List xmlTree)
      (types : List String) (out : String) (e : String) (t : List String) (o : String),
      primitiveType c = false →
      executeGo render c types out = (some e, t, o) →
      executeChildren render (c :: rest) types out = (some e, t, o)) ∧
    (∀ (render : xmlTree → Except String String) (r : xmlTree) (rest : List xmlTree)
      (types : List String) (out : String) (e : String) (t : List String) (o : String),
      executeGo render r types out = (some e, t, o) →
      runRoots render (r :: rest) types out = (some e, t, o)) := by
  refine ⟨?_, ?_, ?_⟩
  · intro render root types out e hm hr
    rw [executeGo_eq, if_neg hm, hr]
  · intro render c rest types out e t o hp hg
    rw [executeChildren_cons, if_neg (by simp [hp]), hg]
  · intro render r rest types out e t o hg
    rw [runRoots_cons, hg]

/-- C10 witness: a failing renderer on an unvisited node aborts with the
pre-existing state. -/
theorem c10_witness :
    executeGo (fun _ => Except.error "boom") c10Node [] "" = (some "boom", [], "") :=
  c10_visited_only_after_render.1 (fun _ => Except.error "boom") c10Node [] "" "boom"
    (by simp) rfl

/-- C1 (amended): a primitive child is skipped entirely by the walk — no
declaration, no recursion, no visit — but the run does not filter its roots: a
primitive node passed as a root is rendered and visited like any other node. -/
theorem c1_primitive_inlining :
    (∀ (render : xmlTree → Except String String) (e : xmlTree) (rest : List xmlTree)
      (types : List String) (out : String),
      primitiveType e = true →
      executeChildren render (e :: rest) types out = executeChildren render rest types out) ∧
    (∀ (pfx : String) (exported : Bool) (e : xmlTree) (types : List String) (out : String),
      primitiveType e = true → e.Name ∉ types → e.Children = [] →
      executeGo (pureRender pfx exported) e types out =
        (none, e.Name :: types, out ++ elemDecl pfx exported e)) := by
  constructor
  · intro render e rest types out h
    rw [executeChildren_cons, if_pos h]
  · intro pfx exported e types out hprim hmem hch
    rw [executeGo_eq, if_neg hmem]
    show executeChildren (pureRender pfx exported) e.Children (e.Name :: types)
      (out ++ elemDecl pfx exported e) = _
    rw [hch, executeChildren_nil]

/-- C1 counterexample: a primitive node (`Type = "int"`, `Cdata = false`)
passed as a root of the run does receive a declaration — the run output is not
empty and the node is marked visited — contradicting the claim that a
primitive node is never emitted even as a root. -/
theorem c1_cx :
    (executeGo (pureRender "" false) c1Node [] "").2.2 ≠ "" ∧
    (executeGo (pureRender "" false) c1Node [] "").2.1 = ["qty"] := by
  refine ⟨by decide, by decide⟩

/-- C1 witness: the amended behaviour at the concrete primitive root. -/
theorem c1_witness :
    executeGo (pureRender "" false) c1Node [] "" =
      (none, ["qty"], "" ++ elemDecl "" false c1Node) :=
  c1_primitive_inlining.2 "" false c1Node [] "" (by decide) (by simp) rfl

/-- C8: the run writes to the output writer only after every step succeeded.
If template preparation, the rendering of any root, or the formatting pass
fails, the outcome is an error and the writer receives nothing; on success the
writer receives exactly the formatter's output. -/
theorem c8_no_partial_output (prep : Except String Unit)
    (render : xmlTree → Except String String)
    (format : String → Except String String) (pkg : String) (roots : List xmlTree) :
    (∀ e, (doGen prep render format pkg roots).1 = Except.error e →
      (doGen prep render format pkg roots).2 = "") ∧
    ((doGen prep render format pkg roots).1 = Except.ok () →
      prep = Except.ok () ∧
      (runRoots render roots [] (header pkg)).1 = none ∧
      format ((runRoots render roots [] (header pkg)).2.2) =
        Except.ok ((doGen prep render format pkg roots).2)) := by
  cases prep with
  | error e0 =>
    refine ⟨fun e he => rfl, fun hok => ?_⟩
    simp [doGen] at hok
  | ok u0 =>
    cases u0
    cases hr : runRoots render roots [] (header pkg) with
    | mk o p =>
      obtain ⟨t, res⟩ := p
      cases o with
      | some e0 =>
        refine ⟨fun e he => ?_, fun hok => ?_⟩
        · simp [doGen, hr]
        · simp [doGen, hr] at hok
      | none =>
        cases hf : format res with
        | error e0 =>
          refine ⟨fun e he => ?_, fun hok => ?_⟩
          · simp [doGen, hr, hf]
          · simp [doGen, hr, hf] at hok
        | ok buf =>
          refine ⟨fun e he => ?_, fun hok => ?_⟩
          · simp [doGen, hr, hf] at he
          · refine ⟨rfl, by simp [hr], ?_⟩
            simp [doGen, hr, hf]

/-- C8 witness: a failing formatter aborts the run with nothing written. -/
theorem c8_witness :
    (doGen (Except.ok ()) (fun _ => Except.ok "X")
      (fun _ => Except.error "bad") "" []).2 = "" :=
  (c8_no_partial_output (Except.ok ()) (fun _ => Except.ok "X")
    (fun _ => Except.error "bad") "" []).1 "bad" rfl

/-- C3 (amended): every attribute of a rendered node contributes one field to
its declaration whose declared type is the attribute's raw `Type` passed
through the identifier normalizer `lint` only — the run's prefix and export
settings are not applied to attribute types — and whose serialization tag
carries the attribute's exact raw schema name. -/
theorem c3_attr_field (pfx : String) (exported : Bool) (e : xmlTree) (a : xmlAttrib)
    (h : a ∈ e.Attribs) :
    ∃ pre post, elemDecl pfx exported e =
      pre ++ ("  " ++ lintTitle a.Name ++ " " ++ lint a.Typ ++
        " `xml:\"" ++ a.Name ++ ",attr\"`\n") ++ post := by
  obtain ⟨l1, l2, hsplit⟩ := List.append_of_mem h
  refine ⟨"// " ++ typeName pfx exported e.Name ++
      " is generated from an XSD element\ntype " ++
      typeName pfx exported e.Name ++ " struct \x7b\n" ++ strConcat (l1.map attrField),
    strConcat (l2.map attrField) ++
      strConcat (e.Children.map (childField pfx exported)) ++
      " " ++ (if e.Cdata then cdataField e else "") ++ " \x7d\n", ?_⟩
  unfold elemDecl
  rw [hsplit, List.map_append, List.map_cons, strConcat_append, strConcat_cons]
  simp only [attrField, String.append_assoc]

/-- C3 counterexample: with run prefix `"xx"`, an attribute of raw type
`"MyType"` is rendered with field type `lint "MyType" = "MyType"`; the
type-name resolver would have produced `"xxMyType"`, which occurs nowhere in
the rendered declaration — attribute types do not go through `typeName`. -/
theorem c3_cx :
    lint "MyType" = "MyType" ∧
    typeName "xx" false "MyType" = "xxMyType" ∧
    elemDecl "xx" false c3Node =
      "// xxE is generated from an XSD element\ntype xxE struct \x7b\n  N MyType `xml:\"n,attr\"`\n  \x7d\n" ∧
    ¬("xxMyType".data <:+: (elemDecl "xx" false c3Node).data) := by
  refine ⟨by decide, by decide, by decide, by decide⟩

/-- C3 witness: the attribute field of the concrete node, inside its rendered
declaration. -/
theorem c3_witness :
    ∃ pre post, elemDecl "xx" false c3Node =
      pre ++ ("  " ++ lintTitle "n" ++ " " ++ lint "MyType" ++
        " `xml:\"" ++ "n" ++ ",attr\"`\n") ++ post :=
  c3_attr_field "xx" false c3Node ⟨"n", "MyType"⟩ (by simp [c3Node])

/-- C7: a node with `Cdata = true` is never primitive (so it is recursed into
as a child and rendered as a root like any non-primitive node), its rendered
declaration ends with the trailing chardata field followed by the closing
brace, the chardata field's type is the linted raw `Type` — which is the raw
`Type` itself whenever that names a primitive — and executing it when
unvisited renders its own declaration. -/
theorem c7_cdata_declaration (pfx : String) (exported : Bool) (e : xmlTree)
    (h : e.Cdata = true) :
    primitiveType e = false ∧
    (∃ pre, elemDecl pfx exported e =
      pre ++ (lintTitle e.Name ++ " " ++ lint e.Typ ++ " `xml:\",chardata\"`\n" ++
        " \x7d\n")) ∧
    (isPrimitiveName e.Typ = true → lint e.Typ = e.Typ) ∧
    (∀ types out, e.Name ∉ types →
      executeGo (pureRender pfx exported) e types out =
        executeChildren (pureRender pfx exported) e.Children (e.Name :: types)
          (out ++ elemDecl pfx exported e)) := by
  refine ⟨?_, ?_, ?_, ?_⟩
  · simp [primitiveType, h]
  · refine ⟨"// " ++ typeName pfx exported e.Name ++
      " is generated from an XSD element\ntype " ++
      typeName pfx exported e.Name ++ " struct \x7b\n" ++
      strConcat (e.Attribs.map attrField) ++
      strConcat (e.Children.map (childField pfx exported)) ++ " ", ?_⟩
    simp [elemDecl, cdataField, h, String.append_assoc]
  · intro hp
    have h5 : e.Typ = "bool" ∨ e.Typ = "string" ∨ e.Typ = "int" ∨ e.Typ = "float64" ∨
        e.Typ = "time.Time" := by
      unfold isPrimitiveName at hp
      simp only [Bool.or_eq_true, beq_iff_eq] at hp
      tauto
    rcases h5 with h5 | h5 | h5 | h5 | h5 <;> rw [h5] <;> decide
  · intro types out hmem
    rw [executeGo_eq, if_neg hmem]
    rfl

/-- C7 witness: a chardata node with primitive raw type is not primitive, and
its chardata field keeps the raw primitive type spelling. -/
theorem c7_witness : primitiveType c7Node = false ∧ lint c7Node.Typ = c7Node.Typ :=
  ⟨(c7_cdata_declaration "" false c7Node rfl).1,
   (c7_cdata_declaration "" false c7Node rfl).2.2.1 (by decide)⟩

/-- C4 (amended): the worked example.  With empty prefix and `exported =
false`, the run on the `Order` root emits exactly two declarations — `Order`
and then the child's — and `Order`'s declaration has an `ID int` attribute
field tagged with raw name `id` and a repeated child field of type
`[]LineItem` tagged with raw name `line-item`; the child field is named
`LineItem` (the normalized child name — the generator does not pluralize). -/
theorem c4_example_run :
    executeGo (pureRender "" false) c4Order [] "" =
      (none, ["line-item", "Order"],
        elemDecl "" false c4Order ++ elemDecl "" false c4Li) ∧
    elemDecl "" false c4Order =
      "// Order is generated from an XSD element\ntype Order struct \x7b\n  ID int `xml:\"id,attr\"`\n  LineItem []LineItem `xml:\"line-item\"`\n  \x7d\n" ∧
    elemDecl "" false c4Li =
      "// lineItem is generated from an XSD element\ntype lineItem struct \x7b\n  \x7d\n" := by
  refine ⟨by decide, by decide, by decide⟩

/-- C4 counterexample: the run's output contains no field named `LineItems` —
the claimed plural field name does not occur anywhere in the emitted text. -/
theorem c4_cx :
    ¬("LineItems".data <:+: ((executeGo (pureRender "" false) c4Order [] "").2.2).data) := by
  decide

end Goxsd
